import Mathlib

/-!
Verification of the index-partitioning engine of `Utilities::MPI::Partitioner`
(`include/deal.II/base/partitioner.h`).

The shallow embedding below translates the inline member functions of the
`Partitioner` class into Lean functions over an explicit record of the class
fields.  Machine `unsigned int` arithmetic (32 bit) is modelled on `Nat` with
an explicit `% 2^32` at every `static_cast<unsigned int>` and at every
addition carried out in `unsigned int`.  The 64-bit global index type
`types::global_dof_index` is modelled as `Nat` (the global indices handled by
the class are bounded by `global_size`, so 64-bit wrap-around never occurs in
any reachable state and is not modelled).  Debug-mode `Assert` failures are
modelled as `Except`/`Option` error results.
-/

deriving instance DecidableEq for Except

namespace DealII

/-- Width of the C++ `unsigned int` type used for local indices. -/
def uintMod : Nat := 2 ^ 32

/-- `std::numeric_limits<unsigned int>::max()`. -/
def uintMax : Nat := 2 ^ 32 - 1

/-- Model of the external `IndexSet` collaborator: an ordered set of
non-negative integers.  The interface consumed by the partitioner is
membership (`is_element`), size (`n_elements`), rank within the set
(`index_within_set`) and nth element (`nth_index_in_set`).  The set is kept
as a strictly increasing list of its elements. -/
structure IndexSet where
  elements : List Nat
  sorted : List.Sorted (· < ·) elements

/-- `IndexSet::is_element`. -/
def IndexSet.is_element (s : IndexSet) (g : Nat) : Bool :=
  s.elements.contains g

/-- `IndexSet::n_elements`. -/
def IndexSet.n_elements (s : IndexSet) : Nat :=
  s.elements.length

/-- `IndexSet::index_within_set`: the rank of a member within the set. -/
def IndexSet.index_within_set (s : IndexSet) (g : Nat) : Nat :=
  s.elements.indexOf g

/-- `IndexSet::nth_index_in_set`: the k-th smallest element of the set. -/
def IndexSet.nth_index_in_set (s : IndexSet) (k : Nat) : Nat :=
  s.elements.getD k 0

/-- Errors surfaced by the partitioner: `ExcIndexNotPresent` (partitioner.h
lines 389-393, carrying the offending global index and the process id),
the `AssertIndexRange` failure in `local_to_global`, the `Assert` in
`local_size`, and the spec error `AlreadyFinalized` for re-finalizing the
ghost set. -/
inductive PartError where
  | IndexNotPresent (globalIndex : Nat) (pid : Nat)
  | IndexOutOfRange (localIndex : Nat) (bound : Nat)
  | AlreadyFinalized
deriving DecidableEq, Repr

/-- The fields of class `Partitioner` that the verified operations touch
(partitioner.h lines 395-494).  `local_range_data` is the half-open owned
interval `[lower, upper)`; `communicator` is an opaque handle. -/
structure Partitioner where
  global_size : Nat
  local_range_data : Nat × Nat
  ghost_indices_data : IndexSet
  n_ghost_indices_data : Nat
  ghost_targets_data : List (Nat × Nat)
  my_pid : Nat
  n_procs : Nat
  communicator : Nat
  have_ghost_indices : Bool

/-- `Partitioner::size`. -/
def Partitioner.size (p : Partitioner) : Nat :=
  p.global_size

/-- `Partitioner::local_range`. -/
def Partitioner.local_range (p : Partitioner) : Nat × Nat :=
  p.local_range_data

/-- `Partitioner::local_size`, release semantics: the 64-bit difference
`local_range_data.second - local_range_data.first` narrowed by
`static_cast<unsigned int>` (the debug `Assert` is a no-op in release mode;
see `Partitioner.local_size_checked` for the debug semantics). -/
def Partitioner.local_size (p : Partitioner) : Nat :=
  (p.local_range_data.2 - p.local_range_data.1) % uintMod

/-- `Partitioner::local_size`, debug semantics: the difference is computed in
the wide type, the `Assert(size <= numeric_limits<unsigned int>::max())`
guards the narrowing, and failure of the assertion aborts (modelled as
`none`). -/
def Partitioner.local_size_checked (p : Partitioner) : Option Nat :=
  let size := p.local_range_data.2 - p.local_range_data.1
  if size ≤ uintMax then some (size % uintMod) else none

/-- `Partitioner::in_local_range`. -/
def Partitioner.in_local_range (p : Partitioner) (global_index : Nat) : Bool :=
  p.local_range_data.1 ≤ global_index && global_index < p.local_range_data.2

/-- `Partitioner::ghost_indices`. -/
def Partitioner.ghost_indices (p : Partitioner) : IndexSet :=
  p.ghost_indices_data

/-- `Partitioner::n_ghost_indices` (the cached count). -/
def Partitioner.n_ghost_indices (p : Partitioner) : Nat :=
  p.n_ghost_indices_data

/-- `Partitioner::is_ghost_entry`: false for locally owned indices, otherwise
membership in the ghost index set. -/
def Partitioner.is_ghost_entry (p : Partitioner) (global_index : Nat) : Bool :=
  if p.in_local_range global_index then
    false
  else
    (p.ghost_indices).is_element global_index

/-- `Partitioner::global_to_local` (partitioner.h lines 562-578), debug
semantics: the `Assert` rejects an index that is neither owned nor ghost
with `ExcIndexNotPresent(global_index, my_pid)`; an owned index maps to
`global_index - lower` narrowed to `unsigned int`; a ghost index maps to
`local_size() + index_within_set(global_index)` computed in `unsigned int`
arithmetic. -/
def Partitioner.global_to_local (p : Partitioner) (global_index : Nat) :
    Except PartError Nat :=
  if p.in_local_range global_index then
    .ok ((global_index - p.local_range_data.1) % uintMod)
  else if p.is_ghost_entry global_index then
    .ok ((p.local_size + (p.ghost_indices_data.index_within_set global_index) % uintMod)
           % uintMod)
  else
    .error (.IndexNotPresent global_index p.my_pid)

/-- `Partitioner::local_to_global` (partitioner.h lines 582-591), debug
semantics: `AssertIndexRange` rejects a local index outside
`[0, local_size() + n_ghost_indices_data)`; an index below `local_size()`
maps into the owned range, a larger one selects the nth ghost index. -/
def Partitioner.local_to_global (p : Partitioner) (local_index : Nat) :
    Except PartError Nat :=
  if local_index < p.local_size + p.n_ghost_indices_data then
    if local_index < p.local_size then
      .ok (p.local_range_data.1 + local_index)
    else
      .ok (p.ghost_indices_data.nth_index_in_set (local_index - p.local_size))
  else
    .error (.IndexOutOfRange local_index (p.local_size + p.n_ghost_indices_data))

/-- `Partitioner::ghost_targets` accessor (partitioner.h lines 621-626). -/
def Partitioner.ghost_targets (p : Partitioner) : List (Nat × Nat) :=
  p.ghost_targets_data

/-- `Partitioner::this_mpi_process`. -/
def Partitioner.this_mpi_process (p : Partitioner) : Nat :=
  p.my_pid

/-- `Partitioner::get_communicator` (deprecated accessor, partitioner.h lines
698-703): returns the cached `communicator` field. -/
def Partitioner.get_communicator (p : Partitioner) : Nat :=
  p.communicator

/-- `Partitioner::get_mpi_communicator` (partitioner.h lines 707-712):
returns the cached `communicator` field. -/
def Partitioner.get_mpi_communicator (p : Partitioner) : Nat :=
  p.communicator

/-- `Partitioner::ghost_indices_initialized`. -/
def Partitioner.ghost_indices_initialized (p : Partitioner) : Bool :=
  p.have_ghost_indices

/-- Invariants of a finalized partition, local to one process: the owned
interval is well formed, all local indices (owned plus ghost) fit into
`unsigned int`, the cached ghost count agrees with the ghost set, and the
ghost set is disjoint from the owned range (spec section 4.1: ghosts must be
disjoint from owned). -/
def Partitioner.Wf (p : Partitioner) : Prop :=
  p.local_range_data.1 ≤ p.local_range_data.2 ∧
  p.local_range_data.2 - p.local_range_data.1 + p.ghost_indices_data.n_elements ≤ uintMax ∧
  p.n_ghost_indices_data = p.ghost_indices_data.n_elements ∧
  ∀ g ∈ p.ghost_indices_data.elements,
    ¬(p.local_range_data.1 ≤ g ∧ g < p.local_range_data.2)

instance (p : Partitioner) : Decidable p.Wf := by
  unfold Partitioner.Wf
  exact inferInstance

/-- Modelled from the spec: the owner lookup of section 4.2 step 1 ("owner of
global index g is the process whose owned_range contains g; this is
determined by a globally-known partition-of-ranges lookup").  `ranges` lists
every process's half-open owned interval, indexed by process id; the
implementation of this lookup lives in `source/base/partitioner.cc`, which is
not among the sampled sources. -/
def owns (ranges : List (Nat × Nat)) (r : Nat) (g : Nat) : Bool :=
  (ranges.getD r (0, 0)).1 ≤ g && g < (ranges.getD r (0, 0)).2

/-- Modelled from the spec: section 4.2 step 1, grouping the ghost set by
owning process into `(neighbor_id, count)` pairs sorted by neighbor id,
keeping only neighbors owning at least one ghost (`Partitioner::ghost_targets`
documentation: processors and the number of ghost degrees of freedom owned by
each).  The computing code is in `source/base/partitioner.cc`, not among the
sampled sources. -/
def compute_ghost_targets (ranges : List (Nat × Nat)) (ghosts : List Nat) :
    List (Nat × Nat) :=
  (List.range ranges.length).filterMap fun r =>
    if ghosts.countP (owns ranges r) = 0 then none
    else some (r, ghosts.countP (owns ranges r))

/-- Modelled from the spec: `Partitioner::set_ghost_indices` / the spec's
`attach_ghosts` (section 4.1: "mutates the not-yet-finalized partition
exactly once; fails with AlreadyFinalized if ghosts were already set").  The
body lives in `source/base/partitioner.cc`, which is not among the sampled
sources; only the declaration (partitioner.h lines 125-126) and the
`have_ghost_indices` flag (lines 490-493) are.  The globally-known owned
ranges `ranges` stand for the information the real code obtains by
communication when compiling the schedule. -/
def Partitioner.set_ghost_indices (p : Partitioner) (ranges : List (Nat × Nat))
    (ghosts : IndexSet) : Except PartError Partitioner :=
  if p.have_ghost_indices then
    .error .AlreadyFinalized
  else
    .ok { p with
          ghost_indices_data := ghosts,
          n_ghost_indices_data := ghosts.n_elements,
          ghost_targets_data := compute_ghost_targets ranges ghosts.elements,
          have_ghost_indices := true }

/-- Modelled from the spec: `Partitioner::is_compatible` (section 4.5:
"local-only comparison of local_size and ghost_set equality"; partitioner.h
lines 267-276 documentation: "Two partitioners are compatible if they have
the same local size and the same ghost indices").  The body lives in
`source/base/partitioner.cc`, which is not among the sampled sources. -/
def Partitioner.is_compatible (p part : Partitioner) : Bool :=
  p.local_size == part.local_size &&
    p.ghost_indices_data.elements == part.ghost_indices_data.elements

/-- Test fixture, process 0 of the spec's concrete scenario (section 8,
property 6): 4 processes, global size 12, owned ranges [0,3), [3,6), [6,9),
[9,12); process 0 ghosts {4, 7}. -/
def rangesEx : List (Nat × Nat) := [(0, 3), (3, 6), (6, 9), (9, 12)]

/-- Ghost set {4, 7} of the fixture. -/
def ghostsEx : IndexSet := ⟨[4, 7], by decide⟩

/-- Finalized partition of process 0 in the fixture scenario. -/
def partEx : Partitioner :=
  { global_size := 12
    local_range_data := (0, 3)
    ghost_indices_data := ghostsEx
    n_ghost_indices_data := 2
    ghost_targets_data := [(1, 1), (2, 1)]
    my_pid := 0
    n_procs := 4
    communicator := 0
    have_ghost_indices := true }

/-- The fixture partition of process 0 before ghosts are attached. -/
def partExOwnedOnly : Partitioner :=
  { global_size := 12
    local_range_data := (0, 3)
    ghost_indices_data := ⟨[], by decide⟩
    n_ghost_indices_data := 0
    ghost_targets_data := []
    my_pid := 0
    n_procs := 4
    communicator := 0
    have_ghost_indices := false }

/-- Fixture partition of process 1 (owned range [3,6), no ghosts), used to
exercise the compatibility check against `partEx`. -/
def partEx1 : Partitioner :=
  { global_size := 12
    local_range_data := (3, 6)
    ghost_indices_data := ⟨[], by decide⟩
    n_ghost_indices_data := 0
    ghost_targets_data := []
    my_pid := 1
    n_procs := 4
    communicator := 0
    have_ghost_indices := true }

/-! ### Helper lemmas -/

theorem uintMax_add_one : uintMax + 1 = uintMod := by decide

theorem IndexSet.nodup_elements (s : IndexSet) : s.elements.Nodup :=
  s.sorted.nodup

theorem IndexSet.is_element_iff {s : IndexSet} {g : Nat} :
    s.is_element g = true ↔ g ∈ s.elements := by
  unfold IndexSet.is_element
  exact List.elem_iff

theorem Partitioner.in_local_range_iff {p : Partitioner} {g : Nat} :
    p.in_local_range g = true ↔
      p.local_range_data.1 ≤ g ∧ g < p.local_range_data.2 := by
  simp [Partitioner.in_local_range]

theorem Partitioner.local_size_of_wf {p : Partitioner} (h : p.Wf) :
    p.local_size = p.local_range_data.2 - p.local_range_data.1 := by
  have hle : p.local_range_data.2 - p.local_range_data.1 ≤ uintMax :=
    le_trans (Nat.le_add_right _ _) h.2.1
  have hlt : p.local_range_data.2 - p.local_range_data.1 < uintMod := by
    have := uintMax_add_one
    omega
  simpa [Partitioner.local_size] using Nat.mod_eq_of_lt hlt

theorem Partitioner.ghost_not_in_local_range {p : Partitioner} (h : p.Wf)
    {g : Nat} (hg : g ∈ p.ghost_indices_data.elements) :
    p.in_local_range g = false := by
  rw [Bool.eq_false_iff]
  intro htrue
  exact h.2.2.2 g hg (Partitioner.in_local_range_iff.mp htrue)

theorem Partitioner.is_ghost_entry_iff {p : Partitioner} {g : Nat} :
    p.is_ghost_entry g = true ↔
      p.in_local_range g = false ∧ g ∈ p.ghost_indices_data.elements := by
  cases hb : p.in_local_range g <;>
    simp [Partitioner.is_ghost_entry, Partitioner.ghost_indices, hb,
          IndexSet.is_element_iff]

theorem sum_map_add {α : Type} (l : List α) (f g : α → Nat) :
    (l.map fun a => f a + g a).sum = (l.map f).sum + (l.map g).sum := by
  induction l with
  | nil => simp
  | cons x xs ih => simp [ih]; omega

theorem sum_map_ite_one {α : Type} (l : List α) (q : α → Bool) :
    (l.map fun a => if q a then 1 else 0).sum = l.countP q := by
  induction l with
  | nil => simp
  | cons x xs ih => simp [List.countP_cons, ih]; omega

theorem sum_counts_swap (n : Nat) (xs : List Nat) (q : Nat → Nat → Bool) :
    ((List.range n).map fun r => xs.countP (q r)).sum =
      (xs.map fun x => (List.range n).countP fun r => q r x).sum := by
  induction xs with
  | nil => simp
  | cons x xs ih =>
    simp only [List.countP_cons]
    rw [sum_map_add, ih, sum_map_ite_one, List.map_cons, List.sum_cons]
    omega

theorem sum_filterMap_nonzero (l : List Nat) (f : Nat → Nat) :
    ((l.filterMap fun r => if f r = 0 then none else some (r, f r)).map
        Prod.snd).sum = (l.map f).sum := by
  induction l with
  | nil => simp
  | cons x xs ih =>
    by_cases hx : f x = 0
    · simp [List.filterMap_cons, hx, ih]
    · simp [List.filterMap_cons, hx, ih]

theorem sum_map_one (l : List Nat) : (l.map fun _ => (1 : Nat)).sum = l.length := by
  induction l with
  | nil => simp
  | cons x xs ih => simp [ih]; omega

theorem Partitioner.l2g_owned_eq {p : Partitioner} {i : Nat}
    (hi : i < p.local_size) (hn : i < p.local_size + p.n_ghost_indices_data) :
    p.local_to_global i = .ok (p.local_range_data.1 + i) := by
  unfold Partitioner.local_to_global
  rw [if_pos hn, if_pos hi]

theorem Partitioner.l2g_ghost_eq {p : Partitioner} {i : Nat}
    (hge : p.local_size ≤ i) (hn : i < p.local_size + p.n_ghost_indices_data) :
    p.local_to_global i =
      .ok (p.ghost_indices_data.nth_index_in_set (i - p.local_size)) := by
  unfold Partitioner.local_to_global
  rw [if_pos hn, if_neg (Nat.not_lt.mpr hge)]

theorem Partitioner.g2l_owned_eq {p : Partitioner} (h : p.Wf) {g : Nat}
    (hin : p.in_local_range g = true) :
    p.global_to_local g = .ok (g - p.local_range_data.1) := by
  have hmod := uintMax_add_one
  have hspan : p.local_range_data.2 - p.local_range_data.1 +
      p.ghost_indices_data.n_elements ≤ uintMax := h.2.1
  obtain ⟨h1, h2⟩ := Partitioner.in_local_range_iff.mp hin
  have hlt : g - p.local_range_data.1 < uintMod := by omega
  simp [Partitioner.global_to_local, hin, Nat.mod_eq_of_lt hlt]

theorem Partitioner.g2l_ghost_eq {p : Partitioner} (h : p.Wf) {g : Nat}
    (hnin : p.in_local_range g = false)
    (hg : g ∈ p.ghost_indices_data.elements) :
    p.global_to_local g =
      .ok (p.local_size + p.ghost_indices_data.index_within_set g) := by
  have hmod := uintMax_add_one
  have hspan : p.local_range_data.2 - p.local_range_data.1 +
      p.ghost_indices_data.n_elements ≤ uintMax := h.2.1
  have hghost : p.is_ghost_entry g = true :=
    Partitioner.is_ghost_entry_iff.mpr ⟨hnin, hg⟩
  have hidx : p.ghost_indices_data.index_within_set g <
      p.ghost_indices_data.n_elements :=
    List.indexOf_lt_length.mpr hg
  have hls := Partitioner.local_size_of_wf h
  have hidxlt : p.ghost_indices_data.index_within_set g < uintMod := by omega
  have hsum : p.local_size + p.ghost_indices_data.index_within_set g <
      uintMod := by omega
  simp [Partitioner.global_to_local, hnin, hghost, Nat.mod_eq_of_lt hidxlt,
        Nat.mod_eq_of_lt hsum]

/-! ### Claim theorems -/

/-- C6: attaching ghost indices to a partition succeeds at most once: if the
partition's ghost set was already finalized, a second attachment fails with
`AlreadyFinalized`, and a partition produced by a successful attachment
rejects every further attachment. -/
theorem set_ghost_indices_at_most_once (p : Partitioner)
    (ranges : List (Nat × Nat)) (ghosts : IndexSet) :
    (p.have_ghost_indices = true →
       p.set_ghost_indices ranges ghosts = .error .AlreadyFinalized) ∧
    (∀ q, p.set_ghost_indices ranges ghosts = .ok q →
       q.have_ghost_indices = true ∧
       ∀ ranges2 ghosts2,
         q.set_ghost_indices ranges2 ghosts2 = .error .AlreadyFinalized) := by
  constructor
  · intro hf
    simp [Partitioner.set_ghost_indices, hf]
  · intro q hq
    unfold Partitioner.set_ghost_indices at hq
    by_cases hf : p.have_ghost_indices = true <;> simp [hf] at hq
    constructor
    · rw [← hq]
    · intro ranges2 ghosts2
      unfold Partitioner.set_ghost_indices
      rw [← hq]
      simp

/-- C6 witness: the owned-only fixture accepts a first attachment whose
result rejects a second one; a finalized fixture rejects attachment. -/
theorem set_ghost_indices_at_most_once_witness :
    partEx.set_ghost_indices rangesEx ghostsEx = .error .AlreadyFinalized :=
  (set_ghost_indices_at_most_once partEx rangesEx ghostsEx).1 rfl

/-- C7: `is_compatible` holds exactly when the two partitions have the same
local size and equal ghost index sets; it is reflexive and symmetric. -/
theorem is_compatible_spec (p q : Partitioner) :
    (p.is_compatible q = true ↔
       p.local_size = q.local_size ∧
       p.ghost_indices_data.elements = q.ghost_indices_data.elements) ∧
    p.is_compatible p = true ∧
    p.is_compatible q = q.is_compatible p := by
  refine ⟨?_, ?_, ?_⟩
  · simp [Partitioner.is_compatible]
  · simp [Partitioner.is_compatible]
  · rw [Bool.eq_iff_iff]
    simp only [Partitioner.is_compatible, Bool.and_eq_true, beq_iff_eq]
    constructor
    · rintro ⟨h1, h2⟩; exact ⟨h1.symm, h2.symm⟩
    · rintro ⟨h1, h2⟩; exact ⟨h1.symm, h2.symm⟩

/-- C7 witness: compatibility of the fixture with itself, decided through the
characterization of the theorem. -/
theorem is_compatible_spec_witness : partEx.is_compatible partEx = true :=
  (is_compatible_spec partEx partEx).2.1

/-- C8: `is_ghost_entry(g)` is true exactly when `g` is outside the owned
local range and an element of the ghost index set; it is never true together
with `in_local_range(g)`. -/
theorem is_ghost_entry_spec (p : Partitioner) (g : Nat) :
    p.is_ghost_entry g =
      (!p.in_local_range g && p.ghost_indices_data.is_element g) ∧
    (p.in_local_range g = true → p.is_ghost_entry g = false) := by
  cases hb : p.in_local_range g <;>
    simp [Partitioner.is_ghost_entry, Partitioner.ghost_indices, hb]

/-- C8 witness: on the fixture, the owned index 1 is not a ghost entry. -/
theorem is_ghost_entry_spec_witness :
    partEx.in_local_range 1 = true ∧ partEx.is_ghost_entry 1 = false :=
  ⟨by decide, (is_ghost_entry_spec partEx 1).2 (by decide)⟩

/-- C9: `local_size` computes `local_range().second - local_range().first`
in the wide type; when the difference fits into `unsigned int` the debug
assertion passes and both the debug and the release narrowing return that
difference exactly. -/
theorem local_size_narrowing_exact (p : Partitioner)
    (h : p.local_range_data.2 - p.local_range_data.1 ≤ uintMax) :
    p.local_size_checked =
      some (p.local_range_data.2 - p.local_range_data.1) ∧
    p.local_size = p.local_range_data.2 - p.local_range_data.1 := by
  have hlt : p.local_range_data.2 - p.local_range_data.1 < uintMod := by
    have := uintMax_add_one
    omega
  constructor
  · simp [Partitioner.local_size_checked, h, Nat.mod_eq_of_lt hlt]
  · simp [Partitioner.local_size, Nat.mod_eq_of_lt hlt]

/-- C9 witness: on the fixture the owned span is 3, which fits. -/
theorem local_size_narrowing_exact_witness :
    partEx.local_range_data.2 - partEx.local_range_data.1 ≤ uintMax ∧
    partEx.local_size = partEx.local_range_data.2 - partEx.local_range_data.1 :=
  ⟨by decide, (local_size_narrowing_exact partEx (by decide)).2⟩

/-- C1: for a well-formed partition, `global_to_local` maps an owned global
index `g` to `g - lower`, maps a non-owned member `g` of the ghost set to
`local_size() + rank_within_ghost_set(g)`, and rejects every other global
index with `IndexNotPresent` carrying the index and the process id. -/
theorem global_to_local_cases (p : Partitioner) (h : p.Wf) (g : Nat) :
    (p.in_local_range g = true →
       p.global_to_local g = .ok (g - p.local_range_data.1)) ∧
    (p.in_local_range g = false → p.ghost_indices_data.is_element g = true →
       p.global_to_local g =
         .ok (p.local_size + p.ghost_indices_data.index_within_set g)) ∧
    (p.in_local_range g = false → p.ghost_indices_data.is_element g = false →
       p.global_to_local g = .error (.IndexNotPresent g p.my_pid)) := by
  have hmod := uintMax_add_one
  have hspan : p.local_range_data.2 - p.local_range_data.1 +
      p.ghost_indices_data.n_elements ≤ uintMax := h.2.1
  refine ⟨?_, ?_, ?_⟩
  · intro hin
    obtain ⟨h1, h2⟩ := Partitioner.in_local_range_iff.mp hin
    have hlt : g - p.local_range_data.1 < uintMod := by omega
    simp [Partitioner.global_to_local, hin, Nat.mod_eq_of_lt hlt]
  · intro hnin hel
    have hg : g ∈ p.ghost_indices_data.elements := IndexSet.is_element_iff.mp hel
    have hghost : p.is_ghost_entry g = true :=
      Partitioner.is_ghost_entry_iff.mpr ⟨hnin, hg⟩
    have hidx : p.ghost_indices_data.index_within_set g <
        p.ghost_indices_data.n_elements :=
      List.indexOf_lt_length.mpr hg
    have hls := Partitioner.local_size_of_wf h
    have hidxlt : p.ghost_indices_data.index_within_set g < uintMod := by omega
    have hsum : p.local_size + p.ghost_indices_data.index_within_set g <
        uintMod := by omega
    simp [Partitioner.global_to_local, hnin, hghost, Nat.mod_eq_of_lt hidxlt,
          Nat.mod_eq_of_lt hsum]
  · intro hnin hnel
    have hghost : p.is_ghost_entry g = false := by
      simp [Partitioner.is_ghost_entry, Partitioner.ghost_indices, hnin, hnel]
    simp [Partitioner.global_to_local, hnin, hghost]

/-- C1 witness: on the fixture partition, the ghost index 4 maps to
`local_size() + rank 0`. -/
theorem global_to_local_cases_witness :
    partEx.Wf ∧
    partEx.global_to_local 4 =
      .ok (partEx.local_size + partEx.ghost_indices_data.index_within_set 4) :=
  ⟨by decide,
   (global_to_local_cases partEx (by decide) 4).2.1 (by decide) (by decide)⟩

/-- C3: a global index that is neither owned nor in the ghost set is rejected
with `IndexNotPresent`, and every successful lookup yields a local index
inside `[0, local_size() + n_ghost_indices())` — never a wrapped or
out-of-range value. -/
theorem global_to_local_rejects_absent (p : Partitioner) (h : p.Wf) (g : Nat) :
    (p.in_local_range g = false → p.ghost_indices_data.is_element g = false →
       p.global_to_local g = .error (.IndexNotPresent g p.my_pid)) ∧
    (∀ v, p.global_to_local g = .ok v →
       v < p.local_size + p.n_ghost_indices) := by
  have hmod := uintMax_add_one
  have hspan : p.local_range_data.2 - p.local_range_data.1 +
      p.ghost_indices_data.n_elements ≤ uintMax := h.2.1
  have hls := Partitioner.local_size_of_wf h
  have hcount : p.n_ghost_indices = p.ghost_indices_data.n_elements := h.2.2.1
  constructor
  · intro hnin hnel
    have hghost : p.is_ghost_entry g = false := by
      simp [Partitioner.is_ghost_entry, Partitioner.ghost_indices, hnin, hnel]
    simp [Partitioner.global_to_local, hnin, hghost]
  · intro v hv
    unfold Partitioner.global_to_local at hv
    by_cases hin : p.in_local_range g = true
    · obtain ⟨h1, h2⟩ := Partitioner.in_local_range_iff.mp hin
      simp [hin] at hv
      have hlt : g - p.local_range_data.1 < uintMod := by omega
      rw [Nat.mod_eq_of_lt hlt] at hv
      omega
    · rw [Bool.not_eq_true] at hin
      by_cases hghost : p.is_ghost_entry g = true
      · obtain ⟨-, hg⟩ := Partitioner.is_ghost_entry_iff.mp hghost
        have hidx : p.ghost_indices_data.index_within_set g <
            p.ghost_indices_data.n_elements :=
          List.indexOf_lt_length.mpr hg
        simp [hin, hghost] at hv
        have hsum : p.local_size + p.ghost_indices_data.index_within_set g <
            uintMod := by omega
        rw [Nat.mod_eq_of_lt hsum] at hv
        omega
      · rw [Bool.not_eq_true] at hghost
        simp [hin, hghost] at hv

/-- C3 witness: on the fixture, global index 5 (owned by process 1, not a
ghost of process 0) is rejected with `IndexNotPresent 5 0`. -/
theorem global_to_local_rejects_absent_witness :
    partEx.Wf ∧
    partEx.global_to_local 5 = .error (.IndexNotPresent 5 partEx.my_pid) :=
  ⟨by decide,
   (global_to_local_rejects_absent partEx (by decide) 5).1 (by decide)
     (by decide)⟩

/-- C2: on a well-formed partition, `local_to_global` and `global_to_local`
are mutually inverse: every local index in
`[0, local_size() + n_ghost_indices())` round-trips through the global
numbering, and every owned or ghosted global index round-trips through the
local numbering. -/
theorem local_global_roundtrip (p : Partitioner) (h : p.Wf) :
    (∀ i, i < p.local_size + p.n_ghost_indices →
       ∃ g, p.local_to_global i = .ok g ∧ p.global_to_local g = .ok i) ∧
    (∀ g, p.in_local_range g = true ∨ p.is_ghost_entry g = true →
       ∃ i, p.global_to_local g = .ok i ∧ p.local_to_global i = .ok g) := by
  have hmod := uintMax_add_one
  have hspan : p.local_range_data.2 - p.local_range_data.1 +
      p.ghost_indices_data.n_elements ≤ uintMax := h.2.1
  have hls := Partitioner.local_size_of_wf h
  have hcount : p.n_ghost_indices_data = p.ghost_indices_data.n_elements :=
    h.2.2.1
  constructor
  · intro i hi
    rw [Partitioner.n_ghost_indices] at hi
    by_cases hown : i < p.local_size
    · refine ⟨p.local_range_data.1 + i, Partitioner.l2g_owned_eq hown hi, ?_⟩
      have hin : p.in_local_range (p.local_range_data.1 + i) = true :=
        Partitioner.in_local_range_iff.mpr ⟨Nat.le_add_right _ _, by omega⟩
      rw [Partitioner.g2l_owned_eq h hin]
      congr 1
      omega
    · have hge : p.local_size ≤ i := Nat.not_lt.mp hown
      have hk : i - p.local_size < p.ghost_indices_data.elements.length := by
        have : p.ghost_indices_data.n_elements =
            p.ghost_indices_data.elements.length := rfl
        omega
      refine ⟨p.ghost_indices_data.elements[i - p.local_size],
              ?_, ?_⟩
      · rw [Partitioner.l2g_ghost_eq hge hi]
        congr 1
        rw [IndexSet.nth_index_in_set]
        exact List.getD_eq_getElem _ _ hk
      · have hmem : p.ghost_indices_data.elements[i - p.local_size] ∈
            p.ghost_indices_data.elements := List.getElem_mem hk
        have hnin := Partitioner.ghost_not_in_local_range h hmem
        rw [Partitioner.g2l_ghost_eq h hnin hmem]
        congr 1
        have hidx : p.ghost_indices_data.index_within_set
            p.ghost_indices_data.elements[i - p.local_size] = i - p.local_size :=
          List.indexOf_getElem (p.ghost_indices_data.nodup_elements) _ hk
        rw [hidx]
        omega
  · intro g hg
    rcases hg with hin | hghost
    · obtain ⟨h1, h2⟩ := Partitioner.in_local_range_iff.mp hin
      refine ⟨g - p.local_range_data.1, Partitioner.g2l_owned_eq h hin, ?_⟩
      have hlt : g - p.local_range_data.1 < p.local_size := by omega
      rw [Partitioner.l2g_owned_eq hlt (by omega)]
      congr 1
      omega
    · obtain ⟨hnin, hmem⟩ := Partitioner.is_ghost_entry_iff.mp hghost
      have hidx : p.ghost_indices_data.index_within_set g <
          p.ghost_indices_data.n_elements := List.indexOf_lt_length.mpr hmem
      refine ⟨p.local_size + p.ghost_indices_data.index_within_set g,
              Partitioner.g2l_ghost_eq h hnin hmem, ?_⟩
      rw [Partitioner.l2g_ghost_eq (Nat.le_add_right _ _) (by omega)]
      congr 1
      have hk : p.local_size + p.ghost_indices_data.index_within_set g -
          p.local_size = p.ghost_indices_data.index_within_set g := by omega
      rw [IndexSet.nth_index_in_set, hk, IndexSet.index_within_set,
          List.getD_eq_getElem _ _ (List.indexOf_lt_length.mpr hmem)]
      exact List.getElem_indexOf (List.indexOf_lt_length.mpr hmem)

/-- C2 witness: on the fixture, local index 3 (the first ghost slot)
round-trips through global index 4. -/
theorem local_global_roundtrip_witness :
    partEx.Wf ∧
    ∃ g, partEx.local_to_global 3 = .ok g ∧ partEx.global_to_local g = .ok 3 :=
  ⟨by decide, (local_global_roundtrip partEx (by decide)).1 3 (by decide)⟩

/-- C4: ghost indices occupy the local segment
`[local_size(), local_size() + n_ghost_indices())` in strictly ascending
global order, and an owned local index `i` maps to `lower + i`. -/
theorem ghost_segment_ascending (p : Partitioner) (h : p.Wf) :
    (∀ i j gi gj, p.local_size ≤ i → i < j →
       j < p.local_size + p.n_ghost_indices →
       p.local_to_global i = .ok gi → p.local_to_global j = .ok gj →
       gi < gj) ∧
    (∀ i, i < p.local_size →
       p.local_to_global i = .ok (p.local_range_data.1 + i)) := by
  have hcount : p.n_ghost_indices_data = p.ghost_indices_data.n_elements :=
    h.2.2.1
  constructor
  · intro i j gi gj hgei hij hj hli hlj
    rw [Partitioner.n_ghost_indices] at hj
    have hgej : p.local_size ≤ j := by omega
    have hkj : j - p.local_size < p.ghost_indices_data.elements.length := by
      have : p.ghost_indices_data.n_elements =
          p.ghost_indices_data.elements.length := rfl
      omega
    have hki : i - p.local_size < p.ghost_indices_data.elements.length := by
      omega
    rw [Partitioner.l2g_ghost_eq hgei (by omega)] at hli
    rw [Partitioner.l2g_ghost_eq hgej (by omega)] at hlj
    have hgi : gi = p.ghost_indices_data.elements[i - p.local_size] := by
      rw [IndexSet.nth_index_in_set, List.getD_eq_getElem _ _ hki] at hli
      exact (Except.ok.inj hli).symm
    have hgj : gj = p.ghost_indices_data.elements[j - p.local_size] := by
      rw [IndexSet.nth_index_in_set, List.getD_eq_getElem _ _ hkj] at hlj
      exact (Except.ok.inj hlj).symm
    rw [hgi, hgj]
    exact List.pairwise_iff_getElem.mp p.ghost_indices_data.sorted
      (i - p.local_size) (j - p.local_size) hki hkj (by omega)
  · intro i hi
    have hn : i < p.local_size + p.n_ghost_indices_data := by omega
    exact Partitioner.l2g_owned_eq hi hn

/-- C4 witness: on the fixture, the two ghost slots 3 and 4 carry the global
indices 4 and 7 in ascending order, and owned slot 1 maps to `lower + 1`. -/
theorem ghost_segment_ascending_witness :
    partEx.Wf ∧ (4 : Nat) < 7 ∧
    partEx.local_to_global 1 = .ok (partEx.local_range_data.1 + 1) :=
  ⟨by decide,
   (ghost_segment_ascending partEx (by decide)).1 3 4 4 7 (by decide)
     (by decide) (by decide) (by rfl) (by rfl),
   (ghost_segment_ascending partEx (by decide)).2 1 (by decide)⟩

/-- C5: for a partition finalized by attaching a ghost set each of whose
elements is owned by exactly one process of the globally-known range table,
the per-neighbor counts of `ghost_targets()` sum to `n_ghost_indices()`. -/
theorem ghost_targets_counts_sum (p q : Partitioner)
    (ranges : List (Nat × Nat)) (ghosts : IndexSet)
    (hpart : ∀ g ∈ ghosts.elements,
       (List.range ranges.length).countP (fun r => owns ranges r g) = 1)
    (hq : p.set_ghost_indices ranges ghosts = .ok q) :
    (q.ghost_targets.map Prod.snd).sum = q.n_ghost_indices := by
  unfold Partitioner.set_ghost_indices at hq
  by_cases hf : p.have_ghost_indices = true <;> simp [hf] at hq
  have htargets : q.ghost_targets = compute_ghost_targets ranges ghosts.elements := by
    rw [← hq]; rfl
  have hn : q.n_ghost_indices = ghosts.n_elements := by
    rw [← hq]; rfl
  rw [htargets, hn, compute_ghost_targets,
      sum_filterMap_nonzero (List.range ranges.length)
        (fun r => ghosts.elements.countP (owns ranges r)),
      sum_counts_swap ranges.length ghosts.elements (fun r g => owns ranges r g)]
  have hone : (ghosts.elements.map fun x =>
      (List.range ranges.length).countP fun r => owns ranges r x) =
      ghosts.elements.map fun _ => (1 : Nat) :=
    List.map_congr_left fun g hg => hpart g hg
  rw [hone, sum_map_one]
  rfl

/-- C5 witness: attaching the fixture ghost set {4, 7} under the fixture
range table yields ghost targets [(1,1), (2,1)], whose counts sum to 2. -/
theorem ghost_targets_counts_sum_witness :
    (partEx.ghost_targets.map Prod.snd).sum = partEx.n_ghost_indices :=
  ghost_targets_counts_sum partExOwnedOnly partEx rangesEx ghostsEx
    (by decide) (by rfl)

/-- C10: the deprecated `get_communicator` and `get_mpi_communicator` both
return the cached `communicator` field, so they always agree. -/
theorem communicator_accessors_agree (p : Partitioner) :
    p.get_communicator = p.get_mpi_communicator :=
  rfl

end DealII
